import Mathlib

/-!
Verification of the wizsearch aggregation core against its specification.

The repository's visible source consists of demo call sites only; the core
(registry, fan-out executor, merger, assembler) is described by the design
specification.  The definitions below are therefore shallow embeddings
modelled from the specification text, and the theorems check the
specification's testable properties against that model.
-/

namespace WizSearch

/-- Modelled from the spec: error kinds carried by a per-engine failure
outcome (the `EngineError` taxonomy of section 6); the core source defining
this enumeration is not in the visible tree. -/
inductive ErrKind where
  | timeout
  | rateLimited
  | upstream
  | invalidParameters
  | unknown
deriving DecidableEq, Repr

/-- Modelled from the spec: one search hit, with the URL serving as the
deduplication identity (section 3, Source); the core source defining this
record is not in the visible tree. -/
structure Source where
  title : Option String
  url : String
  content : Option String
  score : Option Int
deriving DecidableEq, Repr

/-- Modelled from the spec: the result of invoking one engine for one query,
either a success carrying an ordered source list, an optional direct answer
and an elapsed duration, or a failure carrying an error kind, a message and
an elapsed duration (section 3, EngineOutcome); the core source defining
this type is not in the visible tree. -/
inductive EngineOutcome where
  | success (sources : List Source) (answer : Option String) (elapsed : Nat)
  | failure (kind : ErrKind) (message : String) (elapsed : Nat)
deriving DecidableEq, Repr

/-- Modelled from the spec: whether an outcome is a failure (timeout
included); the core source is not in the visible tree. -/
def EngineOutcome.isFailure : EngineOutcome → Bool
  | .success _ _ _ => false
  | .failure _ _ _ => true

/-- Split a character list at the first occurrence of the
scheme separator, returning the part before and the part after it. -/
def findSchemeSep : List Char → Option (List Char × List Char)
  | [] => none
  | ':' :: '/' :: '/' :: rest => some ([], rest)
  | c :: rest =>
    match findSchemeSep rest with
    | some (pre, post) => some (c :: pre, post)
    | none => none

/-- Split a character list at the first slash; the slash stays with the
second component. -/
def splitHost : List Char → List Char × List Char
  | [] => ([], [])
  | '/' :: rest => ([], '/' :: rest)
  | c :: rest =>
    let r := splitHost rest
    (c :: r.1, r.2)

/-- Drop whitespace characters from both ends of a character list. -/
def trimChars (l : List Char) : List Char :=
  ((l.dropWhile Char.isWhitespace).reverse.dropWhile Char.isWhitespace).reverse

/-- Modelled from the spec: URL identity normalization for deduplication,
by trimming plus case-insensitive scheme and host comparison (section 4.3
step 3); the core source of the merger is not in the visible tree.  The
scheme and host are lowercased; the remainder of the URL is left intact. -/
def normalizeUrl (u : String) : String :=
  let t := trimChars u.data
  match findSchemeSep t with
  | some (scheme, rest) =>
    let hp := splitHost rest
    ⟨scheme.map Char.toLower ++ [':', '/', '/'] ++ hp.1.map Char.toLower ++ hp.2⟩
  | none => ⟨t⟩

/-- Normalized URL identities of a source list, in order. -/
def normUrls (l : List Source) : List String :=
  l.map (fun s => normalizeUrl s.url)

/-- Modelled from the spec: restriction of the outcome map to successful
outcomes, keeping the stable engine iteration order (section 4.3 steps 1
and 2); the core source of the merger is not in the visible tree. -/
def successQueues (outcomes : List (String × EngineOutcome)) :
    List (String × List Source) :=
  outcomes.filterMap (fun p =>
    match p.2 with
    | .success srcs _ _ => some (p.1, srcs)
    | .failure _ _ _ => none)

/-- Number of sources still waiting in the per-engine cursors. -/
def totalRemaining (qs : List (String × List Source)) : Nat :=
  (qs.map (fun p => p.2.length)).sum

/-- Modelled from the spec: one round-robin round (section 4.3 step 4).  In
engine order, each engine whose cursor has remaining items advances its
cursor by one; the taken source is emitted when its normalized URL is
unseen, otherwise it is skipped without emitting.  Returns the emitted
sources of the round, the updated seen set, and the updated cursors.  The
core source of the merger is not in the visible tree. -/
def roundStep (seen : List String) :
    List (String × List Source) →
    List Source × List String × List (String × List Source)
  | [] => ([], seen, [])
  | (name, []) :: rest =>
    let r := roundStep seen rest
    (r.1, r.2.1, (name, []) :: r.2.2)
  | (name, src :: q) :: rest =>
    let u := normalizeUrl src.url
    if u ∈ seen then
      let r := roundStep seen rest
      (r.1, r.2.1, (name, q) :: r.2.2)
    else
      let r := roundStep (u :: seen) rest
      (src :: r.1, r.2.1, (name, q) :: r.2.2)

/-- Modelled from the spec: repeated round-robin rounds until all cursors
are exhausted (section 4.3 steps 4 and 5), driven by a fuel argument; each
round consumes at least one remaining source, so `totalRemaining` is enough
fuel.  The core source of the merger is not in the visible tree. -/
def mergeRoundsFuel : Nat → List String → List (String × List Source) → List Source
  | 0, _, _ => []
  | fuel + 1, seen, qs =>
    if totalRemaining qs = 0 then []
    else
      let r := roundStep seen qs
      r.1 ++ mergeRoundsFuel fuel r.2.1 r.2.2

/-- Modelled from the spec: the full round-robin interleaving starting from
a given seen set; the core source of the merger is not in the visible
tree. -/
def mergeRounds (seen : List String) (qs : List (String × List Source)) :
    List Source :=
  mergeRoundsFuel (totalRemaining qs) seen qs

/-- Truncation of the merged sequence to the optional maximum total
(section 4.3 step 5). -/
def truncateTo (maxTotal : Option Nat) (l : List Source) : List Source :=
  match maxTotal with
  | none => l
  | some m => l.take m

/-- Modelled from the spec: the merger contract
`merge(outcomes, max_total?) -> ordered unique Source sequence`
(section 4.3); the core source of the merger is not in the visible tree. -/
def merge (outcomes : List (String × EngineOutcome)) (maxTotal : Option Nat) :
    List Source :=
  truncateTo maxTotal (mergeRounds [] (successQueues outcomes))

/-- Outputs of a sequence of independent merge calls, each call given by its
outcome map and optional maximum total. -/
def mergeCalls (calls : List (List (String × EngineOutcome) × Option Nat)) :
    List (List Source) :=
  calls.map (fun c => merge c.1 c.2)

/-- Modelled from the spec: the aggregate response object (section 3,
AggregateResult); the core source defining this record is not in the
visible tree. -/
structure AggregateResult where
  query : String
  responseTime : Nat
  sources : List Source
  answer : Option String
  rawResponse : List (String × EngineOutcome)
deriving DecidableEq, Repr

/-- Modelled from the spec: the aggregate error taxonomy of section 7; the
core source defining these errors is not in the visible tree. -/
inductive SearchError where
  | invalidQuery
  | unknownEngine (name : String)
  | engineFailure (name : String) (kind : ErrKind) (message : String)
  | allEnginesFailed
deriving DecidableEq, Repr

/-- Modelled from the spec: observable behavior of one engine for the query
under test — the sources and answer it would produce, an error kind when it
fails on its own, and how long its invocation runs (sections 4.2 and 5);
the engine adapters are external collaborators outside the core. -/
structure EngineBehavior where
  sources : List Source
  answer : Option String
  fails : Option ErrKind
  duration : Nat
deriving DecidableEq, Repr

/-- Modelled from the spec: outcome of one engine invocation under the
shared deadline — an invocation still running at deadline expiry is
recorded as a `Timeout` failure and its partial work is discarded
(section 4.2); the core source of the executor is not in the visible
tree. -/
def runEngine (deadline : Nat) (b : EngineBehavior) : EngineOutcome :=
  if deadline < b.duration then
    .failure .timeout "deadline exceeded" deadline
  else
    match b.fails with
    | some k => .failure k "engine error" b.duration
    | none => .success b.sources b.answer b.duration

/-- Modelled from the spec: the fan-out executor contract
`execute(query, enabled_engines, deadline) -> mapping name to EngineOutcome`,
collecting every enabled engine's outcome in the enabled order
(section 4.2); the core source of the executor is not in the visible
tree. -/
def execute (deadline : Nat) (enabled : List String)
    (env : String → EngineBehavior) : List (String × EngineOutcome) :=
  enabled.map (fun n => (n, runEngine deadline (env n)))

/-- Modelled from the spec: the first non-empty direct answer among the
outcomes in engine order (section 4.4); the core source of the assembler is
not in the visible tree. -/
def firstAnswer (outcomes : List (String × EngineOutcome)) : Option String :=
  outcomes.findSome? (fun p =>
    match p.2 with
    | .success _ (some a) _ => if a = "" then none else some a
    | _ => none)

/-- Modelled from the spec: the result assembler contract
`assemble(query, outcomes, merged_sources, elapsed) -> AggregateResult`
(section 4.4); the core source of the assembler is not in the visible
tree. -/
def assemble (query : String) (elapsed : Nat)
    (outcomes : List (String × EngineOutcome)) (maxTotal : Option Nat) :
    AggregateResult :=
  { query := query
    responseTime := elapsed
    sources := merge outcomes maxTotal
    answer := firstAnswer outcomes
    rawResponse := outcomes }

/-- Modelled from the spec: whether a query text is empty or consists only
of whitespace (section 3, Query invariant); the core source of the query
validation is not in the visible tree. -/
def isBlank (q : String) : Bool :=
  q.data.all Char.isWhitespace

/-- Modelled from the spec: the first per-engine failure whose kind is not
`Timeout`, in engine order; under `fail_silently = false` this failure
surfaces as the aggregate error while timeouts are always tolerated
(sections 4.2 and 7); the core source of the executor is not in the
visible tree. -/
def firstHardFailure (outcomes : List (String × EngineOutcome)) :
    Option (String × ErrKind × String) :=
  outcomes.findSome? (fun p =>
    match p.2 with
    | .failure k msg _ =>
      if k = ErrKind.timeout then none else some (p.1, k, msg)
    | _ => none)

/-- Modelled from the spec: the aggregator entry point
`search(query_text, parameters, enabled_engine_names?, deadline?)`
(sections 4.2, 6 and 7).  An empty or whitespace-only query is rejected
with `InvalidQueryError` before dispatch; an enabled name absent from the
registry is rejected with `UnknownEngineError` before dispatch; every
enabled engine is then invoked under the shared deadline; when every
enabled engine failed the call fails with `AllEnginesFailedError` even
under silent mode; when `fail_silently` is false the first non-timeout
engine failure surfaces as the aggregate error; otherwise the merged
result is assembled.  The core source of the aggregator is not in the
visible tree. -/
def search (registry : List String) (enabled : List String)
    (failSilently : Bool) (deadline : Nat) (maxTotal : Option Nat)
    (query : String) (env : String → EngineBehavior) :
    Except SearchError AggregateResult :=
  if isBlank query then .error SearchError.invalidQuery
  else
    match enabled.find? (fun n => decide (n ∉ registry)) with
    | some n => .error (SearchError.unknownEngine n)
    | none =>
      let outcomes := execute deadline enabled env
      if outcomes.all (fun p => p.2.isFailure) then
        if failSilently then .error SearchError.allEnginesFailed
        else
          match firstHardFailure outcomes with
          | some (n, k, msg) => .error (SearchError.engineFailure n k msg)
          | none => .error SearchError.allEnginesFailed
      else
        if failSilently then .ok (assemble query deadline outcomes maxTotal)
        else
          match firstHardFailure outcomes with
          | some (n, k, msg) => .error (SearchError.engineFailure n k msg)
          | none => .ok (assemble query deadline outcomes maxTotal)

/-- Whether an aggregate call succeeded. -/
def isOkResult : Except SearchError AggregateResult → Bool
  | .ok _ => true
  | .error _ => false

/-- Modelled from the spec: the caller's engine-selection configuration —
it may list engine names explicitly or request "all" (section 4.1); the
core source of the configuration surface is not in the visible tree. -/
structure EngineConfig where
  requestAll : Bool
  listed : List String
deriving DecidableEq, Repr

/-- Modelled from the spec: the enabled-engine set derived from the
configuration — the listed names when given, the `discover()` result when
"all" is requested, and no engine by default (section 4.1); the core
source of the registry is not in the visible tree. -/
def enabledFromConfig (discovered : List String) (cfg : EngineConfig) :
    List String :=
  if cfg.requestAll then discovered else cfg.listed

/-- Heads of the per-engine cursors: the next source of each engine that
still has remaining items, in engine order. -/
def queueHeads (qs : List (String × List Source)) : List Source :=
  qs.filterMap (fun p => p.2.head?)

/-- Concrete source with URL u1, engine A's first result in the spec's
merge scenario. -/
def srcU1 : Source := ⟨some "A first", "u1", none, none⟩

/-- Concrete source with URL u2 as returned by engine A in the spec's merge
scenario. -/
def srcU2A : Source := ⟨some "A second", "u2", none, none⟩

/-- Concrete source with URL u3, engine A's third result in the spec's
merge scenario. -/
def srcU3 : Source := ⟨some "A third", "u3", none, none⟩

/-- Concrete source with URL u2 as returned by engine B in the spec's merge
scenario. -/
def srcU2B : Source := ⟨some "B first", "u2", none, none⟩

/-- Concrete source with URL u4, engine B's second result in the spec's
merge scenario. -/
def srcU4 : Source := ⟨some "B second", "u4", none, none⟩

/-- The outcome map of the spec's merge scenario: engine A succeeded with
sources on u1, u2, u3, engine B succeeded with sources on u2, u4, with A
before B in engine order. -/
def scenarioOutcomes : List (String × EngineOutcome) :=
  [("A", EngineOutcome.success [srcU1, srcU2A, srcU3] none 0),
   ("B", EngineOutcome.success [srcU2B, srcU4] none 0)]

/-! Helper lemmas about one round-robin round. -/

theorem normUrls_cons (s : Source) (l : List Source) :
    normUrls (s :: l) = normalizeUrl s.url :: normUrls l := rfl

theorem normUrls_append (a b : List Source) :
    normUrls (a ++ b) = normUrls a ++ normUrls b := by
  simp [normUrls]

theorem mem_normUrls {s : Source} {l : List Source} (hs : s ∈ l) :
    normalizeUrl s.url ∈ normUrls l :=
  List.mem_map_of_mem _ hs

theorem roundStep_seen_eq (seen : List String) (qs : List (String × List Source)) :
    (roundStep seen qs).2.1 = (normUrls (roundStep seen qs).1).reverse ++ seen := by
  induction qs generalizing seen with
  | nil => simp [roundStep, normUrls]
  | cons q rest ih =>
    obtain ⟨name, l⟩ := q
    cases l with
    | nil => simpa [roundStep, normUrls] using ih seen
    | cons src tl =>
      by_cases h : normalizeUrl src.url ∈ seen
      · simpa [roundStep, h, normUrls] using ih seen
      · have h2 := ih (normalizeUrl src.url :: seen)
        simp [roundStep, h, normUrls] at h2 ⊢
        simp [h2]

theorem roundStep_fresh (seen : List String) (qs : List (String × List Source)) :
    (normUrls (roundStep seen qs).1).Nodup ∧
      ∀ s ∈ (roundStep seen qs).1, normalizeUrl s.url ∉ seen := by
  induction qs generalizing seen with
  | nil => simp [roundStep, normUrls]
  | cons q rest ih =>
    obtain ⟨name, l⟩ := q
    cases l with
    | nil => simpa [roundStep, normUrls] using ih seen
    | cons src tl =>
      by_cases h : normalizeUrl src.url ∈ seen
      · simpa [roundStep, h, normUrls] using ih seen
      · have h2 := ih (normalizeUrl src.url :: seen)
        simp [roundStep, h, normUrls] at h2 ⊢
        exact ⟨⟨fun x hx => (h2.2 x hx).1, h2.1⟩, fun a ha => (h2.2 a ha).2⟩

theorem roundStep_remaining_le (seen : List String)
    (qs : List (String × List Source)) :
    totalRemaining (roundStep seen qs).2.2 ≤ totalRemaining qs := by
  induction qs generalizing seen with
  | nil => simp [roundStep]
  | cons q rest ih =>
    obtain ⟨name, l⟩ := q
    cases l with
    | nil => simpa [roundStep, totalRemaining] using ih seen
    | cons src tl =>
      by_cases h : normalizeUrl src.url ∈ seen
      · have := ih seen
        simp [roundStep, h, totalRemaining] at this ⊢
        omega
      · have := ih (normalizeUrl src.url :: seen)
        simp [roundStep, h, totalRemaining] at this ⊢
        omega

theorem roundStep_remaining_lt (seen : List String)
    (qs : List (String × List Source)) (h : totalRemaining qs ≠ 0) :
    totalRemaining (roundStep seen qs).2.2 < totalRemaining qs := by
  induction qs generalizing seen with
  | nil => simp [totalRemaining] at h
  | cons q rest ih =>
    obtain ⟨name, l⟩ := q
    cases l with
    | nil =>
      have hr : totalRemaining rest ≠ 0 := by
        simpa [totalRemaining] using h
      have := ih seen hr
      simpa [roundStep, totalRemaining] using this
    | cons src tl =>
      by_cases hm : normalizeUrl src.url ∈ seen
      · have := roundStep_remaining_le seen rest
        simp [roundStep, hm, totalRemaining] at this ⊢
        omega
      · have := roundStep_remaining_le (normalizeUrl src.url :: seen) rest
        simp [roundStep, hm, totalRemaining] at this ⊢
        omega

theorem roundStep_src_mem (seen : List String)
    (qs : List (String × List Source)) (s : Source)
    (hs : s ∈ (roundStep seen qs).1) : ∃ q ∈ qs, s ∈ q.2 := by
  induction qs generalizing seen with
  | nil => simp [roundStep] at hs
  | cons q rest ih =>
    obtain ⟨name, l⟩ := q
    cases l with
    | nil =>
      simp [roundStep] at hs
      obtain ⟨p, hp, hsp⟩ := ih seen hs
      exact ⟨p, List.mem_cons_of_mem _ hp, hsp⟩
    | cons src tl =>
      by_cases h : normalizeUrl src.url ∈ seen
      · simp [roundStep, h] at hs
        obtain ⟨p, hp, hsp⟩ := ih seen hs
        exact ⟨p, List.mem_cons_of_mem _ hp, hsp⟩
      · simp [roundStep, h] at hs
        rcases hs with hs | hs
        · exact ⟨(name, src :: tl), List.mem_cons_self _ _, by simp [hs]⟩
        · obtain ⟨p, hp, hsp⟩ := ih (normalizeUrl src.url :: seen) hs
          exact ⟨p, List.mem_cons_of_mem _ hp, hsp⟩

theorem roundStep_queues_sub (seen : List String)
    (qs : List (String × List Source)) (p : String × List Source)
    (hp : p ∈ (roundStep seen qs).2.2) : ∃ q ∈ qs, ∀ s ∈ p.2, s ∈ q.2 := by
  induction qs generalizing seen with
  | nil => simp [roundStep] at hp
  | cons q rest ih =>
    obtain ⟨name, l⟩ := q
    cases l with
    | nil =>
      simp [roundStep] at hp
      rcases hp with hp | hp
      · exact ⟨(name, []), List.mem_cons_self _ _, by simp [hp]⟩
      · obtain ⟨w, hw, hsw⟩ := ih seen hp
        exact ⟨w, List.mem_cons_of_mem _ hw, hsw⟩
    | cons src tl =>
      by_cases h : normalizeUrl src.url ∈ seen
      · simp [roundStep, h] at hp
        rcases hp with hp | hp
        · refine ⟨(name, src :: tl), List.mem_cons_self _ _, ?_⟩
          intro s hsp
          simp [hp] at hsp
          simp [hsp]
        · obtain ⟨w, hw, hsw⟩ := ih seen hp
          exact ⟨w, List.mem_cons_of_mem _ hw, hsw⟩
      · simp [roundStep, h] at hp
        rcases hp with hp | hp
        · refine ⟨(name, src :: tl), List.mem_cons_self _ _, ?_⟩
          intro s hsp
          simp [hp] at hsp
          simp [hsp]
        · obtain ⟨w, hw, hsw⟩ := ih (normalizeUrl src.url :: seen) hp
          exact ⟨w, List.mem_cons_of_mem _ hw, hsw⟩

/-! Helper lemmas about the repeated rounds. -/

theorem mergeRoundsFuel_fresh (fuel : Nat) (seen : List String)
    (qs : List (String × List Source)) :
    (normUrls (mergeRoundsFuel fuel seen qs)).Nodup ∧
      ∀ s ∈ mergeRoundsFuel fuel seen qs, normalizeUrl s.url ∉ seen := by
  induction fuel generalizing seen qs with
  | zero => simp [mergeRoundsFuel, normUrls]
  | succ fuel ih =>
    by_cases h : totalRemaining qs = 0
    · simp [mergeRoundsFuel, h, normUrls]
    · have hrs := roundStep_fresh seen qs
      have hseen := roundStep_seen_eq seen qs
      have hih := ih (roundStep seen qs).2.1 (roundStep seen qs).2.2
      rw [hseen] at hih
      have hfr : ∀ s ∈ mergeRoundsFuel fuel
          ((normUrls (roundStep seen qs).1).reverse ++ seen) (roundStep seen qs).2.2,
          normalizeUrl s.url ∉ normUrls (roundStep seen qs).1 ∧
            normalizeUrl s.url ∉ seen := by
        intro s hs
        have hns := hih.2 s hs
        simp only [List.mem_append, List.mem_reverse, not_or] at hns
        exact hns
      simp only [mergeRoundsFuel, if_neg h]
      rw [hseen]
      constructor
      · rw [normUrls_append, List.nodup_append]
        refine ⟨hrs.1, hih.1, ?_⟩
        intro x hx1 hx2
        simp only [normUrls, List.mem_map] at hx2
        obtain ⟨s, hs, hxs⟩ := hx2
        rw [← hxs] at hx1
        exact (hfr s hs).1 hx1
      · intro s hs
        rw [List.mem_append] at hs
        rcases hs with hs | hs
        · exact hrs.2 s hs
        · exact (hfr s hs).2

theorem mergeRoundsFuel_src_mem (fuel : Nat) (seen : List String)
    (qs : List (String × List Source)) (s : Source)
    (hs : s ∈ mergeRoundsFuel fuel seen qs) : ∃ q ∈ qs, s ∈ q.2 := by
  induction fuel generalizing seen qs with
  | zero => simp [mergeRoundsFuel] at hs
  | succ fuel ih =>
    by_cases h : totalRemaining qs = 0
    · simp [mergeRoundsFuel, h] at hs
    · simp [mergeRoundsFuel, h] at hs
      rcases hs with hs | hs
      · exact roundStep_src_mem _ _ _ hs
      · obtain ⟨p, hp, hsp⟩ := ih _ _ hs
        obtain ⟨q, hq, hsub⟩ := roundStep_queues_sub seen qs p hp
        exact ⟨q, hq, hsub s hsp⟩

theorem queueHeads_length (qs : List (String × List Source))
    (hne : ∀ q ∈ qs, q.2 ≠ []) : (queueHeads qs).length = qs.length := by
  induction qs with
  | nil => simp [queueHeads]
  | cons q rest ih =>
    obtain ⟨name, l⟩ := q
    cases l with
    | nil => exact absurd rfl (hne (name, []) (List.mem_cons_self _ _))
    | cons s tl =>
      have := ih (fun q hq => hne q (List.mem_cons_of_mem _ hq))
      simp [queueHeads] at this ⊢
      exact this

theorem roundStep_fst_eq_heads (seen : List String)
    (qs : List (String × List Source))
    (hne : ∀ q ∈ qs, q.2 ≠ [])
    (hnd : (normUrls (queueHeads qs)).Nodup)
    (hfresh : ∀ s ∈ queueHeads qs, normalizeUrl s.url ∉ seen) :
    (roundStep seen qs).1 = queueHeads qs := by
  induction qs generalizing seen with
  | nil => simp [roundStep, queueHeads]
  | cons q rest ih =>
    obtain ⟨name, l⟩ := q
    cases l with
    | nil => exact absurd rfl (hne (name, []) (List.mem_cons_self _ _))
    | cons src tl =>
      have hheads : queueHeads ((name, src :: tl) :: rest)
          = src :: queueHeads rest := by
        simp [queueHeads]
      rw [hheads, normUrls_cons, List.nodup_cons] at hnd
      rw [hheads] at hfresh
      have hmem : normalizeUrl src.url ∉ seen :=
        hfresh src (List.mem_cons_self _ _)
      have hih := ih (normalizeUrl src.url :: seen)
        (fun q hq => hne q (List.mem_cons_of_mem _ hq))
        hnd.2
        (fun s hs => by
          simp only [List.mem_cons, not_or]
          exact ⟨fun heq => hnd.1 (heq ▸ mem_normUrls hs),
            hfresh s (List.mem_cons_of_mem _ hs)⟩)
      simp [roundStep, hmem, hheads, hih]

/-- Provenance of merged sources: every source emitted by the merger comes
from the source list of a successful outcome of the given outcome map. -/
theorem merge_mem_success (outcomes : List (String × EngineOutcome))
    (maxTotal : Option Nat) (s : Source) (hs : s ∈ merge outcomes maxTotal) :
    ∃ name srcs answer elapsed,
      (name, EngineOutcome.success srcs answer elapsed) ∈ outcomes ∧ s ∈ srcs := by
  have hs2 : s ∈ mergeRounds [] (successQueues outcomes) := by
    cases maxTotal with
    | none => simpa [merge, truncateTo] using hs
    | some m => exact List.mem_of_mem_take (by simpa [merge, truncateTo] using hs)
  rw [mergeRounds] at hs2
  obtain ⟨q, hq, hsq⟩ := mergeRoundsFuel_src_mem _ _ _ s hs2
  simp only [successQueues, List.mem_filterMap] at hq
  obtain ⟨p, hp, hpq⟩ := hq
  obtain ⟨name, o⟩ := p
  cases o with
  | success srcs ans el =>
    simp at hpq
    exact ⟨name, srcs, ans, el, hp, by rw [← hpq] at hsq; exact hsq⟩
  | failure k msg el => simp at hpq

/-! Theorems for the specification's claims. -/

/-- Claim C1: for every outcome map given to the merger, the merged output
sequence contains no two sources whose URLs are equivalent under
normalization (trimming plus case-insensitive scheme and host comparison);
once a URL identity has been emitted it is never emitted again. -/
theorem merged_normalized_urls_nodup (outcomes : List (String × EngineOutcome))
    (maxTotal : Option Nat) : (normUrls (merge outcomes maxTotal)).Nodup := by
  have h := (mergeRoundsFuel_fresh (totalRemaining (successQueues outcomes)) []
    (successQueues outcomes)).1
  cases maxTotal with
  | none => simpa [merge, truncateTo, mergeRounds] using h
  | some m =>
    rw [merge, truncateTo]
    have heq : normUrls ((mergeRounds [] (successQueues outcomes)).take m)
        = (normUrls (mergeRounds [] (successQueues outcomes))).take m := by
      simp [normUrls, List.map_take]
    rw [heq]
    exact (List.take_sublist m _).nodup (by simpa [mergeRounds] using h)

/-- Claim C2: for every outcome map whose successful engines each
contribute at least one source, when no duplicate URL forces a skip, the
first N sources of the merged sequence (N the number of successful
engines) are exactly one source from each of the N engines — their current
heads — taken in the fixed engine iteration order. -/
theorem merge_first_round_fair (outcomes : List (String × EngineOutcome))
    (hne : ∀ q ∈ successQueues outcomes, q.2 ≠ [])
    (hnd : (normUrls (queueHeads (successQueues outcomes))).Nodup) :
    (merge outcomes none).take (successQueues outcomes).length
      = queueHeads (successQueues outcomes) := by
  by_cases hz : totalRemaining (successQueues outcomes) = 0
  · have hqs : successQueues outcomes = [] := by
      cases hq : successQueues outcomes with
      | nil => rfl
      | cons q rest =>
        exfalso
        have hq2 := hne q (hq ▸ List.mem_cons_self _ _)
        rw [hq] at hz
        simp [totalRemaining] at hz
        exact hq2 hz.1
    simp [merge, truncateTo, mergeRounds, hqs, queueHeads, mergeRoundsFuel,
      totalRemaining]
  · obtain ⟨k, hk⟩ := Nat.exists_eq_succ_of_ne_zero hz
    have hheads := roundStep_fst_eq_heads [] (successQueues outcomes) hne hnd
      (by simp)
    have hlen := queueHeads_length (successQueues outcomes) hne
    rw [merge, truncateTo, mergeRounds, hk]
    simp only [mergeRoundsFuel, if_neg hz]
    rw [hheads, ← hlen, List.take_left]

/-- Witness for claim C2 at a concrete two-engine outcome map. -/
theorem merge_first_round_fair_witness :
    (merge [("A", EngineOutcome.success [srcU1, srcU2A] none 0),
            ("B", EngineOutcome.success [srcU4] none 0)] none).take
        (successQueues [("A", EngineOutcome.success [srcU1, srcU2A] none 0),
            ("B", EngineOutcome.success [srcU4] none 0)]).length
      = queueHeads (successQueues
          [("A", EngineOutcome.success [srcU1, srcU2A] none 0),
           ("B", EngineOutcome.success [srcU4] none 0)]) :=
  merge_first_round_fair _ (by decide) (by decide)

/-- Claim C3: on the concrete input where engine A succeeded with sources
on u1, u2, u3 and engine B with sources on u2, u4 (A before B, u2 the only
duplicate URL), merge with no maximum total produces exactly the sequence
u1, u2, u4, u3, where round 1 emits A's u1 then B's u2 — hence the emitted
u2 is B's copy — round 2 skips A's duplicate u2 and emits B's u4, and
round 3 emits A's u3. -/
theorem merge_scenario_round_robin :
    merge scenarioOutcomes none = [srcU1, srcU2B, srcU4, srcU3]
      ∧ (roundStep [] (successQueues scenarioOutcomes)).1 = [srcU1, srcU2B] := by
  decide

/-- Claim C4: every source of the merged output originates from the
source list of a successful outcome; since a failure or timeout outcome
carries no sources into the merge, an engine whose outcome is a failure or
a timeout contributes nothing to the merged output. -/
theorem merge_sources_only_from_successes (outcomes : List (String × EngineOutcome))
    (maxTotal : Option Nat) (s : Source) (hs : s ∈ merge outcomes maxTotal) :
    ∃ name srcs answer elapsed,
      (name, EngineOutcome.success srcs answer elapsed) ∈ outcomes ∧ s ∈ srcs :=
  merge_mem_success outcomes maxTotal s hs

/-- Witness for claim C4 at a concrete outcome map mixing a success and a
failure. -/
theorem merge_sources_only_from_successes_witness :
    ∃ name srcs answer elapsed,
      (name, EngineOutcome.success srcs answer elapsed)
          ∈ [("A", EngineOutcome.success [srcU1] none 0),
             ("B", EngineOutcome.failure ErrKind.upstream "boom" 0)]
        ∧ srcU1 ∈ srcs :=
  merge_sources_only_from_successes _ none srcU1 (by decide)

/-- Claim C5: merging is deterministic and stateless — in any sequence of
merge calls, two calls with identical inputs (outcome map and maximum
total) produce identical output sequences, regardless of their position in
the sequence. -/
theorem merge_no_hidden_state
    (calls : List (List (String × EngineOutcome) × Option Nat)) (i j : Nat)
    (hi : i < calls.length) (hj : j < calls.length)
    (h : calls.get ⟨i, hi⟩ = calls.get ⟨j, hj⟩) :
    (mergeCalls calls)[i]? = (mergeCalls calls)[j]? := by
  simp only [mergeCalls]
  rw [List.getElem?_map, List.getElem?_map, List.getElem?_eq_getElem hi,
    List.getElem?_eq_getElem hj]
  simp only [List.get_eq_getElem] at h
  rw [h]

/-- Witness for claim C5 at two identical calls on the scenario outcome
map. -/
theorem merge_no_hidden_state_witness :
    (mergeCalls [(scenarioOutcomes, none), (scenarioOutcomes, none)])[0]?
      = (mergeCalls [(scenarioOutcomes, none), (scenarioOutcomes, none)])[1]? :=
  merge_no_hidden_state _ 0 1 (by decide) (by decide) rfl


/-- Claim C6: with fail_silently true, a valid query and all enabled
names registered, the aggregate call fails with AllEnginesFailedError when
every enabled engine's outcome is a failure (any mix of error kinds), and
succeeds as soon as at least one enabled engine succeeds. -/
theorem search_all_engines_failed (registry enabled : List String)
    (deadline : Nat) (maxTotal : Option Nat) (query : String)
    (env : String → EngineBehavior)
    (hq : isBlank query = false)
    (hreg : ∀ n ∈ enabled, n ∈ registry) :
    ((∀ n ∈ enabled, (runEngine deadline (env n)).isFailure = true) →
        search registry enabled true deadline maxTotal query env
          = .error SearchError.allEnginesFailed)
      ∧ ((∃ n ∈ enabled, (runEngine deadline (env n)).isFailure = false) →
        isOkResult (search registry enabled true deadline maxTotal query env)
          = true) := by
  have hfind : enabled.find? (fun n => decide (n ∉ registry)) = none := by
    rw [List.find?_eq_none]
    intro n hn
    simp [hreg n hn]
  simp only [decide_not] at hfind
  constructor
  · intro hall
    have hA : (execute deadline enabled env).all (fun p => p.2.isFailure) = true := by
      rw [List.all_eq_true]
      intro x hx
      simp only [execute, List.mem_map] at hx
      obtain ⟨n, hn, hxn⟩ := hx
      rw [← hxn]
      exact hall n hn
    simp [search, hq, hfind, hA]
  · intro hex
    obtain ⟨n, hn, hf⟩ := hex
    have hA : (execute deadline enabled env).all (fun p => p.2.isFailure) = false := by
      rw [Bool.eq_false_iff]
      intro hall2
      rw [List.all_eq_true] at hall2
      have hc := hall2 (n, runEngine deadline (env n))
        (by simp only [execute, List.mem_map]; exact ⟨n, hn, rfl⟩)
      simp [hf] at hc
    simp [search, hq, hfind, hA, isOkResult]

/-- Witness for claim C6: three engines all failing yield
AllEnginesFailedError even under silent mode, while one success among
three engines yields a successful call. -/
theorem search_all_engines_failed_witness :
    (search ["a", "b", "c"] ["a", "b", "c"] true 10 none "q"
        (fun _ => ⟨[], none, some ErrKind.upstream, 1⟩)
      = .error SearchError.allEnginesFailed)
    ∧ (isOkResult (search ["a", "b", "c"] ["a", "b", "c"] true 10 none "q"
        (fun n => if n = "a" then ⟨[srcU1], none, none, 1⟩
          else ⟨[], none, some ErrKind.upstream, 1⟩)) = true) :=
  ⟨(search_all_engines_failed ["a", "b", "c"] ["a", "b", "c"] 10 none "q"
      (fun _ => ⟨[], none, some ErrKind.upstream, 1⟩) (by decide) (by decide)).1
      (by decide),
   (search_all_engines_failed ["a", "b", "c"] ["a", "b", "c"] 10 none "q"
      (fun n => if n = "a" then ⟨[srcU1], none, none, 1⟩
        else ⟨[], none, some ErrKind.upstream, 1⟩) (by decide) (by decide)).2
      (by decide)⟩

/-- Claim C7: with fail_silently true, when some enabled engine completes
successfully within the deadline, the call succeeds; the outcome map of
the returned aggregate records a Timeout failure entry for every engine
whose invocation outlives the deadline, and every merged source comes from
an engine that finished within the deadline without failing — the
timed-out engines' data is excluded. -/
theorem search_timeout_tolerated (registry enabled : List String)
    (deadline : Nat) (maxTotal : Option Nat) (query : String)
    (env : String → EngineBehavior)
    (hq : isBlank query = false)
    (hreg : ∀ n ∈ enabled, n ∈ registry)
    (hsucc : ∃ n ∈ enabled, (env n).duration ≤ deadline ∧ (env n).fails = none) :
    ∃ r, search registry enabled true deadline maxTotal query env = .ok r
      ∧ (∀ m ∈ enabled, deadline < (env m).duration →
          (m, EngineOutcome.failure ErrKind.timeout "deadline exceeded" deadline)
            ∈ r.rawResponse)
      ∧ (∀ s ∈ r.sources, ∃ n ∈ enabled, (env n).duration ≤ deadline ∧
          (env n).fails = none ∧ s ∈ (env n).sources) := by
  have hfind : enabled.find? (fun n => decide (n ∉ registry)) = none := by
    rw [List.find?_eq_none]
    intro n hn
    simp [hreg n hn]
  simp only [decide_not] at hfind
  obtain ⟨n0, hn0, hd0, hf0⟩ := hsucc
  have hrun0 : runEngine deadline (env n0)
      = EngineOutcome.success (env n0).sources (env n0).answer (env n0).duration := by
    simp [runEngine, Nat.not_lt.mpr hd0, hf0]
  have hA : (execute deadline enabled env).all (fun p => p.2.isFailure) = false := by
    rw [Bool.eq_false_iff]
    intro hall2
    rw [List.all_eq_true] at hall2
    have hc := hall2 (n0, runEngine deadline (env n0))
      (by simp only [execute, List.mem_map]; exact ⟨n0, hn0, rfl⟩)
    simp [hrun0, EngineOutcome.isFailure] at hc
  refine ⟨assemble query deadline (execute deadline enabled env) maxTotal,
    by simp [search, hq, hfind, hA], ?_, ?_⟩
  · intro m hm hdm
    have hrunm : runEngine deadline (env m)
        = EngineOutcome.failure ErrKind.timeout "deadline exceeded" deadline := by
      simp [runEngine, hdm]
    simp only [assemble, execute]
    exact List.mem_map.mpr ⟨m, hm, by simp [hrunm]⟩
  · intro s hs
    simp only [assemble] at hs
    obtain ⟨name, srcs, ans, el, hmem, hsrc⟩ :=
      merge_mem_success (execute deadline enabled env) maxTotal s hs
    simp only [execute, List.mem_map] at hmem
    obtain ⟨n, hn, heq⟩ := hmem
    have hout : runEngine deadline (env n)
        = EngineOutcome.success srcs ans el := congrArg Prod.snd heq
    by_cases hdl : deadline < (env n).duration
    · rw [runEngine, if_pos hdl] at hout
      exact absurd hout (by simp)
    · rw [runEngine, if_neg hdl] at hout
      cases hfails : (env n).fails with
      | some k => rw [hfails] at hout; exact absurd hout (by simp)
      | none =>
        rw [hfails] at hout
        have hsrcs : (env n).sources = srcs := by
          have := congrArg (fun o => match o with
            | EngineOutcome.success l _ _ => l
            | EngineOutcome.failure _ _ _ => []) hout
          simpa using this
        exact ⟨n, hn, Nat.not_lt.mp hdl, hfails, by rw [hsrcs]; exact hsrc⟩
/-- Witness for claim C7: of three engines, engine b outlives the
deadline; the call succeeds, b's Timeout entry is recorded, and merged
sources come only from engines within the deadline. -/
theorem search_timeout_tolerated_witness :
    ∃ r, search ["a", "b", "c"] ["a", "b", "c"] true 10 none "q"
        (fun n => if n = "b" then ⟨[srcU4], none, none, 99⟩
          else ⟨[srcU1], none, none, 1⟩) = .ok r
      ∧ (∀ m ∈ ["a", "b", "c"], 10 < ((fun n : String =>
            if n = "b" then (⟨[srcU4], none, none, 99⟩ : EngineBehavior)
              else ⟨[srcU1], none, none, 1⟩) m).duration →
          (m, EngineOutcome.failure ErrKind.timeout "deadline exceeded" 10)
            ∈ r.rawResponse)
      ∧ (∀ s ∈ r.sources, ∃ n ∈ ["a", "b", "c"], ((fun n : String =>
            if n = "b" then (⟨[srcU4], none, none, 99⟩ : EngineBehavior)
              else ⟨[srcU1], none, none, 1⟩) n).duration ≤ 10 ∧
          ((fun n : String => if n = "b" then (⟨[srcU4], none, none, 99⟩ : EngineBehavior)
              else ⟨[srcU1], none, none, 1⟩) n).fails = none ∧
          s ∈ ((fun n : String => if n = "b" then (⟨[srcU4], none, none, 99⟩ : EngineBehavior)
              else ⟨[srcU1], none, none, 1⟩) n).sources) :=
  search_timeout_tolerated ["a", "b", "c"] ["a", "b", "c"] 10 none "q"
    (fun n => if n = "b" then ⟨[srcU4], none, none, 99⟩
      else ⟨[srcU1], none, none, 1⟩)
    (by decide) (by decide) ⟨"a", by decide, by decide, by decide⟩

/-- Claim C8: a search whose enabled-engine set contains a name not
present in the registry fails with UnknownEngineError for both values of
fail_silently, and the result does not depend on the engine environment —
no engine is invoked. -/
theorem search_unknown_engine_rejected (registry enabled : List String)
    (failSilently : Bool) (deadline : Nat) (maxTotal : Option Nat)
    (query : String)
    (hq : isBlank query = false)
    (hunk : ∃ n ∈ enabled, n ∉ registry) :
    ∃ m ∈ enabled, m ∉ registry ∧
      ∀ env : String → EngineBehavior,
        search registry enabled failSilently deadline maxTotal query env
          = .error (SearchError.unknownEngine m) := by
  have hsome : (enabled.find? (fun n => decide (n ∉ registry))).isSome := by
    rw [List.find?_isSome]
    obtain ⟨n, hn, hnr⟩ := hunk
    exact ⟨n, hn, by simpa using hnr⟩
  obtain ⟨m, hm⟩ := Option.isSome_iff_exists.mp hsome
  have hmem := List.mem_of_find?_eq_some hm
  have hprop := List.find?_some hm
  simp only [decide_not] at hm
  refine ⟨m, hmem, by simpa using hprop, fun env => ?_⟩
  simp [search, hq, hm]

/-- Witness for claim C8 at a concrete registry without the requested
engine name x. -/
theorem search_unknown_engine_rejected_witness :
    ∃ m ∈ ["x"], m ∉ ["duckduckgo", "tavily"] ∧
      ∀ env : String → EngineBehavior,
        search ["duckduckgo", "tavily"] ["x"] false 10 none "q" env
          = .error (SearchError.unknownEngine m) :=
  search_unknown_engine_rejected ["duckduckgo", "tavily"] ["x"] false 10 none "q"
    (by decide) ⟨"x", by decide, by decide⟩

/-- Claim C9: a search whose query text is empty or consists only of
whitespace fails with InvalidQueryError, independent of registry, enabled
set, fail_silently, deadline, maximum total and engine environment. -/
theorem search_blank_query_rejected (registry enabled : List String)
    (failSilently : Bool) (deadline : Nat) (maxTotal : Option Nat)
    (query : String) (env : String → EngineBehavior)
    (hq : isBlank query = true) :
    search registry enabled failSilently deadline maxTotal query env
      = .error SearchError.invalidQuery := by
  simp [search, hq]

/-- Witness for claim C9 at the empty query. -/
theorem search_blank_query_rejected_witness :
    search ["duckduckgo"] ["duckduckgo"] true 10 none ""
        (fun _ => ⟨[srcU1], none, none, 1⟩)
      = .error SearchError.invalidQuery :=
  search_blank_query_rejected ["duckduckgo"] ["duckduckgo"] true 10 none ""
    (fun _ => ⟨[srcU1], none, none, 1⟩) (by decide)

/-- Claim C10: if the caller's configuration neither lists any engine
names nor requests "all", no engine is enabled; when "all" is requested
the enabled set equals the discover() result; and a non-empty enabled set
requires the configuration to list names or request "all". -/
theorem enabled_engines_from_config (discovered : List String)
    (cfg : EngineConfig) :
    (cfg.requestAll = false → cfg.listed = [] →
        enabledFromConfig discovered cfg = [])
      ∧ (cfg.requestAll = true → enabledFromConfig discovered cfg = discovered)
      ∧ (enabledFromConfig discovered cfg ≠ [] →
          cfg.requestAll = true ∨ cfg.listed ≠ []) := by
  obtain ⟨ra, ls⟩ := cfg
  cases ra <;> simp [enabledFromConfig]

/-- Witness for claim C10 at concrete configurations. -/
theorem enabled_engines_from_config_witness :
    (enabledFromConfig ["duckduckgo", "tavily"] ⟨false, []⟩ = [])
      ∧ (enabledFromConfig ["duckduckgo", "tavily"] ⟨true, []⟩
          = ["duckduckgo", "tavily"])
      ∧ ((⟨false, ["brave"]⟩ : EngineConfig).requestAll = true
          ∨ (⟨false, ["brave"]⟩ : EngineConfig).listed ≠ []) :=
  ⟨(enabled_engines_from_config ["duckduckgo", "tavily"] ⟨false, []⟩).1 rfl rfl,
   (enabled_engines_from_config ["duckduckgo", "tavily"] ⟨true, []⟩).2.1 rfl,
   (enabled_engines_from_config ["duckduckgo"] ⟨false, ["brave"]⟩).2.2 (by decide)⟩


end WizSearch
